import Mathlib

/-!
# Verification of the Titanic EDA tabular-statistics core (src/app.js)

Shallow embedding of the data model and the statistics/merge engine of the
two app variants in `src/app.js`.  JavaScript record values are modelled by
the inductive `Value` (a finite numeric value, the floating NaN, a string,
or null — `null` also stands for `undefined`; key presence is tracked
separately by `hasField` where the source distinguishes `undefined` from
`null`).  Numbers are exact rationals: every arithmetic step performed by
the source on data of realistic size is exact except where noted in
comments.  Rows are ordered association lists of (key, value) pairs,
mirroring JavaScript objects; `setField` mirrors the semantics of
`{...row, source: tag}` (an existing key is updated in place, a new key is
appended last).
-/

namespace TitanicEDA

/-- A JavaScript value as it appears in a parsed record: a finite number,
the floating NaN (present, `typeof` "number", but not a valid datum), a
string, or null/undefined. -/
inductive Value where
  | num (q : ℚ)
  | nan
  | str (s : String)
  | null
deriving DecidableEq, Repr

/-- A record/row: an ordered association list from column name to value,
mirroring a JavaScript object's own enumerable properties in insertion
order. -/
abbrev Row := List (String × Value)

/-- Field read `row[k]`: the first binding of `k`, or null/undefined when the key is
absent.  (`null` stands for both JS `null` and `undefined`.) -/
def getField : Row → String → Value
  | [], _ => .null
  | p :: rest, k => if p.1 = k then p.2 else getField rest k

/-- Whether the object has the key at all (JS `row[k] !== undefined` for
parsed records, where a present key may still hold `null`). -/
def hasField : Row → String → Bool
  | [], _ => false
  | p :: rest, k => p.1 == k || hasField rest k

/-- JS object update `{...row, k: v}` restricted to a single key `k`:
if `k` is already a key its value is replaced in place (keeping the key's
position), otherwise the binding is appended at the end. -/
def setField (r : Row) (k : String) (v : Value) : Row :=
  if hasField r k then r.map (fun p => if p.1 = k then (k, v) else p)
  else r ++ [(k, v)]

/-- Row tagging `row => ({...row, source: tag})` — the tagging step of the merge
(src/app.js lines 83/98 and 1140/1141). -/
def tagRow (tag : String) (r : Row) : Row :=
  setField r "source" (.str tag)

/-- The merge proper: `[...trainWithSource, ...testWithSource]`
(src/app.js line 102 and line 1144). -/
def mergeDatasets (trainRecords testRecords : List Row) : List Row :=
  trainRecords.map (tagRow "train") ++ testRecords.map (tagRow "test")

/-- The only failure the loader reports before merging. -/
inductive LoadError where
  | fileMissing
deriving DecidableEq, Repr

/-- The loader `loadAndMergeDatasets` (src/app.js lines 1122-1169; `loadAndMergeData`
lines 59-120 has the same control flow): the input validation only checks
that both file inputs are picked (`if (!trainFile || !testFile)`), and the
already-parsed batches are then tagged and concatenated unconditionally —
there is no emptiness check on the parsed record batches. -/
def loadAndMergeDatasets :
    Option (List Row) → Option (List Row) → Except LoadError (List Row)
  | some trainRecords, some testRecords =>
      .ok (mergeDatasets trainRecords testRecords)
  | _, _ => .error .fileMissing

/-! ### Helper lemmas about rows and the merge -/

theorem hasField_eq_true_iff (r : Row) (k : String) :
    hasField r k = true ↔ ∃ p ∈ r, p.1 = k := by
  induction r with
  | nil => simp [hasField]
  | cons p rest ih =>
      simp [hasField, ih, Bool.or_eq_true, beq_iff_eq]

theorem getField_of_not_hasField (r : Row) (k : String)
    (h : ¬ hasField r k = true) : getField r k = Value.null := by
  induction r with
  | nil => rfl
  | cons p rest ih =>
      simp only [hasField, Bool.or_eq_true, beq_iff_eq, not_or] at h
      simp [getField, h.1, ih h.2]

theorem getField_append (r s : Row) (k : String) :
    getField (r ++ s) k =
      if hasField r k then getField r k else getField s k := by
  induction r with
  | nil => simp [getField, hasField]
  | cons p rest ih =>
      by_cases hp : p.1 = k
      · simp [getField, hasField, hp]
      · simp [getField, hasField, hp, ih]

theorem getField_map_update_self (r : Row) (k : String) (v : Value)
    (h : hasField r k = true) :
    getField (r.map (fun p => if p.1 = k then (k, v) else p)) k = v := by
  induction r with
  | nil => simp [hasField] at h
  | cons p rest ih =>
      by_cases hp : p.1 = k
      · simp [getField, hp]
      · simp only [hasField, Bool.or_eq_true, beq_iff_eq, hp, false_or] at h
        simp [getField, hp, ih h]

theorem getField_map_update_ne (r : Row) (k k' : String) (v : Value)
    (hne : k' ≠ k) :
    getField (r.map (fun p => if p.1 = k then (k, v) else p)) k' =
      getField r k' := by
  induction r with
  | nil => simp [getField]
  | cons p rest ih =>
      by_cases hp : p.1 = k
      · have h1 : p.1 ≠ k' := fun hc => hne ((hc ▸ hp : k' = k))
        have h2 : k ≠ k' := fun hc => hne hc.symm
        simp [getField, hp, h1, h2, ih]
      · simp [getField, hp, ih]

theorem getField_setField_self (r : Row) (k : String) (v : Value) :
    getField (setField r k v) k = v := by
  unfold setField
  by_cases h : hasField r k = true
  · simp only [h, if_true]
    exact getField_map_update_self r k v h
  · rw [if_neg h, getField_append]
    simp [h, getField]

theorem getField_setField_ne (r : Row) (k k' : String) (v : Value)
    (hne : k' ≠ k) : getField (setField r k v) k' = getField r k' := by
  unfold setField
  by_cases h : hasField r k = true
  · simp only [h, if_true]
    exact getField_map_update_ne r k k' v hne
  · rw [if_neg h, getField_append]
    by_cases hk' : hasField r k' = true
    · simp [hk']
    · simp only [hk', if_false, getField, getField_of_not_hasField r k' hk']
      rw [if_neg (fun hc : k = k' => hne hc.symm)]
      simp

theorem getField_tagRow (tag : String) (r : Row) (k : String) :
    getField (tagRow tag r) k =
      if k = "source" then Value.str tag else getField r k := by
  unfold tagRow
  by_cases h : k = "source"
  · simp [h, getField_setField_self]
  · simp [h, getField_setField_ne r "source" k _ h]

theorem keys_setField (r : Row) (k : String) (v : Value) :
    (setField r k v).map Prod.fst =
      if hasField r k then r.map Prod.fst else r.map Prod.fst ++ [k] := by
  unfold setField
  by_cases h : hasField r k = true
  · simp only [h, if_true, List.map_map]
    refine List.map_congr_left (fun p _ => ?_)
    by_cases hp : p.1 = k <;> simp [hp]
  · simp [h]

theorem length_mergeDatasets (A B : List Row) :
    (mergeDatasets A B).length = A.length + B.length := by
  simp [mergeDatasets]

theorem getElem_mergeDatasets_source (A B : List Row) (i : Nat)
    (hi : i < (mergeDatasets A B).length) :
    getField ((mergeDatasets A B)[i]) "source" =
      if i < A.length then Value.str "train" else Value.str "test" := by
  by_cases h : i < A.length
  · have hA : i < (A.map (tagRow "train")).length := by simpa using h
    unfold mergeDatasets at hi ⊢
    rw [List.getElem_append_left hA]
    simp [getField_tagRow, h]
  · have hlen : (A.map (tagRow "train")).length ≤ i := by
      simpa using Nat.le_of_not_lt h
    unfold mergeDatasets at hi ⊢
    rw [List.getElem_append_right hlen]
    simp [getField_tagRow, h]

/-! ### Claims C1, C2, C10 — ingestion & merge -/

/-- C1 (counterexample): the claim says `merge([], anything)` and
`merge(anything, [])` fail with `EmptyInputError`, producing no dataset.
The code has no such check: with both files picked, empty parsed batches
are tagged and concatenated like any others, so both calls succeed and a
(one-sided) merged dataset is produced. -/
theorem merge_accepts_empty_batch :
    loadAndMergeDatasets (some []) (some [[("PassengerId", Value.num 1)]]) =
      .ok [[("PassengerId", Value.num 1), ("source", Value.str "test")]] ∧
    loadAndMergeDatasets (some [[("PassengerId", Value.num 1)]]) (some []) =
      .ok [[("PassengerId", Value.num 1), ("source", Value.str "train")]] := by
  constructor <;> rfl

/-- C1 (amended): the merge fails — with the single "files missing" error,
producing no dataset — exactly when either input file is absent; a present
but empty parsed batch is never rejected: `merge(A,B)` always succeeds on
two present batches and yields the tagged concatenation, so `merge([],B)`
yields only B's rows and `merge(A,[])` only A's. -/
theorem loadAndMerge_fails_only_on_missing_file :
    (∀ b, loadAndMergeDatasets none b = .error .fileMissing) ∧
    (∀ a, loadAndMergeDatasets a none = .error .fileMissing) ∧
    (∀ A B, loadAndMergeDatasets (some A) (some B) =
        .ok (mergeDatasets A B) ∧
      (mergeDatasets A B).length = A.length + B.length) := by
  refine ⟨fun b => rfl, fun a => ?_, fun A B => ⟨rfl, length_mergeDatasets A B⟩⟩
  cases a <;> rfl

/-- C2: for non-empty batches A (size m) and B (size n) the merged dataset
has exactly m + n rows in append order, the first m carrying
`source = "train"` and the remaining n carrying `source = "test"`. -/
theorem merge_rowCount_and_origin_tags (A B : List Row)
    (hA : A ≠ []) (hB : B ≠ []) :
    (mergeDatasets A B).length = A.length + B.length ∧
    ∀ i : Fin (mergeDatasets A B).length,
      getField ((mergeDatasets A B).get i) "source" =
        if (i : Nat) < A.length then Value.str "train" else Value.str "test" := by
  refine ⟨length_mergeDatasets A B, fun i => ?_⟩
  rw [List.get_eq_getElem]
  exact getElem_mergeDatasets_source A B i i.isLt

/-- C2 witness at a concrete pair of one-row batches. -/
theorem merge_rowCount_and_origin_tags_witness :
    (mergeDatasets [[("x", Value.num 1)]] [[("y", Value.num 2)]]).length =
        1 + 1 ∧
    ∀ i : Fin (mergeDatasets [[("x", Value.num 1)]]
        [[("y", Value.num 2)]]).length,
      getField ((mergeDatasets [[("x", Value.num 1)]]
          [[("y", Value.num 2)]]).get i) "source" =
        if (i : Nat) < 1 then Value.str "train" else Value.str "test" :=
  merge_rowCount_and_origin_tags [[("x", Value.num 1)]] [[("y", Value.num 2)]]
    (by decide) (by decide)

/-- C10: tagging copies every field of the input record unchanged and only
the `source` field is (over)written with the origin tag — in particular a
pre-existing `source` field is silently overwritten, and the key set grows
by `source` exactly when the record did not already have it. -/
theorem tagRow_frame (r : Row) (tag k : String) :
    getField (tagRow tag r) k =
      (if k = "source" then Value.str tag else getField r k) ∧
    (tagRow tag r).map Prod.fst =
      (if hasField r "source" then r.map Prod.fst
       else r.map Prod.fst ++ ["source"]) :=
  ⟨getField_tagRow tag r k, keys_setField r "source" (.str tag)⟩

/-! ### Column type inference (src/app.js `determineColumnTypes`, 1199-1239) -/

/-- A value the inference loop skips:
`value === null || value === undefined || value === ''`. -/
def isSkipped : Value → Bool
  | .null => true
  | .str s => s == ""
  | _ => false

/-- The test `typeof value === 'number'` — note that JS NaN has `typeof` "number". -/
def isNumberType : Value → Bool
  | .num _ => true
  | .nan => true
  | _ => false

/-- The inference scan over the sampled values of one column: skipped
values are passed over; the first value that is not a number aborts the
scan (`isNumeric = false; break`); otherwise the numeric values are
counted.  `none` models the aborted scan, `some k` the completed scan with
`numericCount = k`. -/
def scanSample : List Value → Option Nat
  | [] => some 0
  | v :: rest =>
      if isSkipped v then scanSample rest
      else if isNumberType v then (scanSample rest).map (· + 1)
      else none

inductive ColType where
  | numeric
  | categorical
deriving DecidableEq, Repr

/-- The sampled values of a column: the first `min(100, rowCount)` rows in
dataset order. -/
def sampleVals (merged : List Row) (col : String) : List Value :=
  (merged.take (min 100 merged.length)).map (fun r => getField r col)

/-- The inference `determineColumnTypes` for one column: `source` is categorical by
construction; otherwise the sample is scanned and the column is numeric
iff the scan completed (`isNumeric`) with `numericCount > 0`. -/
def determineColumnType (merged : List Row) (col : String) : ColType :=
  if col = "source" then .categorical
  else
    match scanSample (sampleVals merged col) with
    | none => .categorical
    | some k => if 0 < k then .numeric else .categorical

theorem scanSample_cons_skip (v : Value) (rest : List Value)
    (hs : isSkipped v = true) :
    scanSample (v :: rest) = scanSample rest := by
  simp [scanSample, hs]

theorem scanSample_cons_number (v : Value) (rest : List Value)
    (hs : ¬ isSkipped v = true) (hn : isNumberType v = true) :
    scanSample (v :: rest) = (scanSample rest).map (· + 1) := by
  simp [scanSample, hs, hn]

theorem scanSample_cons_other (v : Value) (rest : List Value)
    (hs : ¬ isSkipped v = true) (hn : ¬ isNumberType v = true) :
    scanSample (v :: rest) = none := by
  simp [scanSample, hs, hn]

theorem isSkipped_not_isNumberType (v : Value) (hs : isSkipped v = true) :
    ¬ isNumberType v = true := by
  cases v <;> simp_all [isSkipped, isNumberType]

theorem scanSample_eq_none_iff (vs : List Value) :
    scanSample vs = none ↔
      ∃ v ∈ vs, ¬ isSkipped v ∧ ¬ isNumberType v := by
  induction vs with
  | nil => simp [scanSample]
  | cons v rest ih =>
      by_cases hs : isSkipped v = true
      · rw [scanSample_cons_skip v rest hs, ih]
        have := isSkipped_not_isNumberType v hs
        simp only [List.mem_cons]
        constructor
        · rintro ⟨w, hw, h⟩
          exact ⟨w, Or.inr hw, h⟩
        · rintro ⟨w, hw | hw, h⟩
          · exact absurd hs (hw ▸ h.1)
          · exact ⟨w, hw, h⟩
      · by_cases hn : isNumberType v = true
        · rw [scanSample_cons_number v rest hs hn, Option.map_eq_none', ih]
          simp only [List.mem_cons]
          constructor
          · rintro ⟨w, hw, h⟩
            exact ⟨w, Or.inr hw, h⟩
          · rintro ⟨w, hw | hw, h⟩
            · exact absurd hn (hw ▸ h.2)
            · exact ⟨w, hw, h⟩
        · rw [scanSample_cons_other v rest hs hn]
          exact ⟨fun _ => ⟨v, List.mem_cons_self v rest, by simp [hs, hn]⟩,
            fun _ => rfl⟩

theorem scanSample_eq_some_iff (vs : List Value) (k : Nat) :
    scanSample vs = some k ↔
      (∀ v ∈ vs, ¬ isSkipped v → isNumberType v) ∧
        k = vs.countP isNumberType := by
  induction vs generalizing k with
  | nil =>
      simp only [scanSample, List.countP_nil, Option.some.injEq,
        List.not_mem_nil, false_implies, implies_true, true_and]
      exact eq_comm
  | cons v rest ih =>
      by_cases hs : isSkipped v = true
      · have hn := isSkipped_not_isNumberType v hs
        rw [scanSample_cons_skip v rest hs, ih, List.countP_cons]
        simp only [hn, Bool.false_eq_true, if_false, Nat.add_zero,
          List.mem_cons]
        constructor
        · rintro ⟨h1, h2⟩
          exact ⟨fun w hw hwp => by
            rcases hw with hw | hw
            · exact absurd hs (by simpa [hw] using hwp)
            · exact h1 w hw hwp, h2⟩
        · rintro ⟨h1, h2⟩
          exact ⟨fun w hw hwp => h1 w (Or.inr hw) hwp, h2⟩
      · by_cases hn : isNumberType v = true
        · rw [scanSample_cons_number v rest hs hn, Option.map_eq_some',
            List.countP_cons]
          simp only [hn, if_true, List.mem_cons]
          constructor
          · rintro ⟨a, ha, rfl⟩
            rcases (ih a).mp ha with ⟨h1, h2⟩
            refine ⟨?_, by omega⟩
            intro w hw hwp
            rcases hw with hw | hw
            · exact hw ▸ hn
            · exact h1 w hw hwp
          · rintro ⟨h1, h2⟩
            refine ⟨rest.countP isNumberType, ?_, by omega⟩
            exact (ih _).mpr ⟨fun w hw hwp => h1 w (Or.inr hw) hwp, rfl⟩
        · rw [scanSample_cons_other v rest hs hn]
          constructor
          · intro hc
            exact absurd hc (by simp)
          · rintro ⟨h1, _⟩
            exact absurd (h1 v (List.mem_cons_self v rest) (by simp [hs])) hn

/-- Locality helper: the scan only looks at the first 100 rows, so taking
them first changes nothing. -/
theorem sampleVals_take (merged : List Row) (col : String) :
    sampleVals (merged.take 100) col = sampleVals merged col := by
  unfold sampleVals
  rw [List.take_take, List.length_take]
  congr 2
  omega

/-! ### Claim C6 — column type inference -/

/-- C6: type inference is a pure function of the first `min(100, rowCount)`
rows (so it agrees with inference on the truncated dataset); the `source`
column is categorical by construction; and a non-`source` column is
classified numeric iff every present (non-skipped) sampled value has
number type and at least one sampled value has number type — equivalently:
any present non-numeric sampled value forces categorical, an all-absent
sample is categorical, and a sample with only numeric present values and
at least one of them is numeric. -/
theorem columnType_characterisation (merged : List Row) (col : String)
    (hcol : col ≠ "source") :
    determineColumnType merged col =
        determineColumnType (merged.take 100) col ∧
    determineColumnType merged "source" = .categorical ∧
    (determineColumnType merged col = .numeric ↔
      ((∀ v ∈ sampleVals merged col, ¬ isSkipped v → isNumberType v) ∧
        ∃ v ∈ sampleVals merged col, isNumberType v)) := by
  refine ⟨?_, by simp [determineColumnType], ?_⟩
  · unfold determineColumnType
    rw [sampleVals_take]
  · unfold determineColumnType
    rw [if_neg hcol]
    rcases h : scanSample (sampleVals merged col) with _ | k
    · rw [scanSample_eq_none_iff] at h
      rcases h with ⟨v, hv, h1, h2⟩
      simp only []
      constructor
      · intro hc
        exact absurd hc (by simp)
      · rintro ⟨hall, _⟩
        exact absurd (hall v hv (by simpa using h1)) (by simpa using h2)
    · rw [scanSample_eq_some_iff] at h
      rcases h with ⟨hall, rfl⟩
      by_cases hk : 0 < (sampleVals merged col).countP isNumberType
      · simp only [hk, if_true, true_iff]
        refine ⟨hall, ?_⟩
        rw [List.countP_pos_iff] at hk
        exact hk
      · simp only [hk, if_false]
        constructor
        · intro hc
          exact absurd hc (by simp)
        · rintro ⟨_, v, hv, hnum⟩
          exact absurd (List.countP_pos_iff.mpr ⟨v, hv, hnum⟩) hk

/-- C6 witness: a concrete two-row dataset with a numeric `Age` column. -/
theorem columnType_characterisation_witness :
    determineColumnType [[("Age", Value.num 30)], [("Age", Value.null)]]
          "Age" =
        determineColumnType
          ([[("Age", Value.num 30)], [("Age", Value.null)]].take 100) "Age" ∧
    determineColumnType [[("Age", Value.num 30)], [("Age", Value.null)]]
        "source" = .categorical ∧
    (determineColumnType [[("Age", Value.num 30)], [("Age", Value.null)]]
          "Age" = .numeric ↔
      ((∀ v ∈ sampleVals [[("Age", Value.num 30)], [("Age", Value.null)]]
            "Age", ¬ isSkipped v → isNumberType v) ∧
        ∃ v ∈ sampleVals [[("Age", Value.num 30)], [("Age", Value.null)]]
            "Age", isNumberType v)) :=
  columnType_characterisation
    [[("Age", Value.num 30)], [("Age", Value.null)]] "Age" (by decide)

/-! ### Statistical summaries (src/app.js `calculateStatisticalSummaries`,
1461-1582)

Configuration constants of the second variant. -/

def TARGET_COLUMN : String := "Survived"

def EXCLUDED_COLUMNS : List String := ["PassengerId"]

/-- The `values` list of a column:
`merged.map(row => row[column]).filter(val => val !== null && val !== undefined && val !== '')`. -/
def presentValues (merged : List Row) (col : String) : List Value :=
  (merged.map (fun r => getField r col)).filter (fun v => !isSkipped v)

/-- The `numericValues` list:
`values.filter(v => typeof v === 'number' && !isNaN(v))`, extracted as
rationals (NaN is number-typed but fails `!isNaN`). -/
def numericValues (merged : List Row) (col : String) : List ℚ :=
  (presentValues merged col).filterMap
    (fun v => match v with | .num q => some q | _ => none)

/-- The mean `mean = numericValues.reduce((a,b) => a+b, 0) / numericValues.length`. -/
def meanOf (merged : List Row) (col : String) : ℚ :=
  (numericValues merged col).sum / (numericValues merged col).length

/-- The sort `[...numericValues].sort((a,b) => a-b)` — JS `Array.sort` is stable,
and a stable sort for a total preorder has a unique output, so the
insertion sort models it exactly. -/
def sortedValues (merged : List Row) (col : String) : List ℚ :=
  List.insertionSort (· ≤ ·) (numericValues merged col)

/-- The median `sorted[Math.floor(sorted.length / 2)]`; for a nonnegative JS
number `Math.floor` is the rational floor, and `length / 2` is exact in
binary floating point. -/
def medianOf (merged : List Row) (col : String) : ℚ :=
  (sortedValues merged col).getD
    (((sortedValues merged col).length : ℚ) * (1 / 2)).floor.toNat 0

/-- The first quartile `sorted[Math.floor(sorted.length * 0.25)]`; `0.25` is the dyadic
rational 1/4, so `length * 0.25` is exact in floating point. -/
def q1Of (merged : List Row) (col : String) : ℚ :=
  (sortedValues merged col).getD
    (((sortedValues merged col).length : ℚ) * (1 / 4)).floor.toNat 0

/-- The third quartile `sorted[Math.floor(sorted.length * 0.75)]`; `0.75 = 3/4` is
dyadic and `length * 0.75` is exact in floating point for any realistic
length. -/
def q3Of (merged : List Row) (col : String) : ℚ :=
  (sortedValues merged col).getD
    (((sortedValues merged col).length : ℚ) * (3 / 4)).floor.toNat 0

/-- The variance `numericValues.reduce((a,b) => a + Math.pow(b - mean, 2), 0)
/ numericValues.length` — the population variance (divide by N). -/
def varianceOf (merged : List Row) (col : String) : ℚ :=
  ((numericValues merged col).map
      (fun x => (x - meanOf merged col) ^ 2)).sum /
    (numericValues merged col).length

/-- The standard deviation `Math.sqrt(variance)`. -/
noncomputable def stdDevOf (merged : List Row) (col : String) : ℝ :=
  Real.sqrt (varianceOf merged col)

/-- The minimum `Math.min(...numericValues)` on a nonempty list. -/
def listMin : List ℚ → ℚ
  | [] => 0
  | x :: xs => xs.foldl min x

/-- The maximum `Math.max(...numericValues)` on a nonempty list. -/
def listMax : List ℚ → ℚ
  | [] => 0
  | x :: xs => xs.foldl max x

/-! #### Grouped-by-Survived means (numeric path, lines 1501-1521)

The filter on line 1505 checks only `typeof row[column] === 'number'`,
without the `!isNaN` guard used elsewhere, so a NaN value can flow into
the group sums.  `JSNum` models a JS number that is either NaN or a finite
(exact) value; NaN propagates through the arithmetic exactly as in IEEE
floating point. -/

inductive JSNum where
  | nan
  | fin (q : ℚ)
deriving DecidableEq, Repr

def jsAdd : JSNum → JSNum → JSNum
  | .fin a, .fin b => .fin (a + b)
  | _, _ => .nan

def jsSub : JSNum → JSNum → JSNum
  | .fin a, .fin b => .fin (a - b)
  | _, _ => .nan

/-- Division by the positive count `Math.max(1, n)`; the `n = 0` guard is
unreachable from the call sites. -/
def jsDivNat (x : JSNum) (n : Nat) : JSNum :=
  match x with
  | .fin q => if n = 0 then .nan else .fin (q / n)
  | .nan => .nan

/-- The value slot of a `typeof === 'number'` value. -/
def toJSNum : Value → JSNum
  | .num q => .fin q
  | _ => .nan

/-- The test `row[TARGET_COLUMN] === 1` (strict equality with the number 1). -/
def isOne : Value → Bool
  | .num q => q == 1
  | _ => false

/-- The test `row[TARGET_COLUMN] === 0`. -/
def isZero : Value → Bool
  | .num q => q == 0
  | _ => false

structure GroupedNumeric where
  survivedMean : JSNum
  notSurvivedMean : JSNum
  difference : JSNum
deriving DecidableEq, Repr

/-- The train split `merged.filter(row => row.source === 'train')`. -/
def trainRows (merged : List Row) : List Row :=
  merged.filter (fun r => getField r "source" == .str "train")

/-- The numeric grouped-by-Survived block (lines 1502-1520): guarded by
`column !== TARGET_COLUMN && merged[0][TARGET_COLUMN] !== undefined`;
pairs keep rows whose column value and target are both number-typed
(NaN included — the missing `!isNaN` guard), and each group mean divides
the group sum by `Math.max(1, groupSize)`. -/
def groupedNumericOf (merged : List Row) (col : String) :
    Option GroupedNumeric :=
  if col ≠ TARGET_COLUMN ∧
      ((merged.head?.map (fun r => hasField r TARGET_COLUMN)).getD false
        = true) then
    let sv := ((trainRows merged).filter
        (fun r => isNumberType (getField r col) &&
          isNumberType (getField r TARGET_COLUMN))).map
      (fun r => (toJSNum (getField r col), getField r TARGET_COLUMN))
    let pos := sv.filter (fun v => isOne v.2)
    let neg := sv.filter (fun v => isZero v.2)
    let survivedMean :=
      jsDivNat (pos.foldl (fun s v => jsAdd s v.1) (.fin 0))
        (max 1 pos.length)
    let notSurvivedMean :=
      jsDivNat (neg.foldl (fun s v => jsAdd s v.1) (.fin 0))
        (max 1 neg.length)
    some ⟨survivedMean, notSurvivedMean,
      jsSub survivedMean notSurvivedMean⟩
  else none

/-- The numeric summary record stored in `titanicData.stats[column]`
(the displayed strings are `toFixed(2)` renderings of these values;
the model keeps the exact numbers). -/
structure NumericStats where
  count : Nat
  missing : Nat
  mean : ℚ
  median : ℚ
  stdDev : ℝ
  minV : ℚ
  maxV : ℚ
  q1 : ℚ
  q3 : ℚ
  groupedBySurvived : Option GroupedNumeric

/-- The numeric path of `calculateStatisticalSummaries` for one column:
columns in `EXCLUDED_COLUMNS` and `source` are never analyzed (line
1465-1467); a column whose inferred type is not numeric takes the
categorical path instead; and with zero valid numeric values no summary is
emitted at all (the `numericValues.length > 0` guard). -/
noncomputable def numericSummary (merged : List Row) (col : String) :
    Option NumericStats :=
  if col ∈ EXCLUDED_COLUMNS ∨ col = "source" then none
  else if determineColumnType merged col = .numeric then
    if 0 < (numericValues merged col).length then
      some
        { count := (numericValues merged col).length
          missing := merged.length - (numericValues merged col).length
          mean := meanOf merged col
          median := medianOf merged col
          stdDev := stdDevOf merged col
          minV := listMin (numericValues merged col)
          maxV := listMax (numericValues merged col)
          q1 := q1Of merged col
          q3 := q3Of merged col
          groupedBySurvived := groupedNumericOf merged col }
    else none
  else none

/-! ### Claim C5 — population standard deviation, nearest-rank quartiles -/

/-- The spec's nearest-rank rule: the value of the ascending-sorted
sequence at index `floor(p × n)`, no interpolation. -/
def nearestRank (p : ℚ) (sorted : List ℚ) : ℚ :=
  sorted.getD (p * (sorted.length : ℚ)).floor.toNat 0

theorem sum_sq_nonneg (m : ℚ) (l : List ℚ) :
    0 ≤ (l.map (fun x => (x - m) ^ 2)).sum := by
  refine List.sum_nonneg ?_
  intro x hx
  rcases List.mem_map.mp hx with ⟨y, _, rfl⟩
  positivity

theorem varianceOf_nonneg (merged : List Row) (col : String) :
    0 ≤ varianceOf merged col := by
  unfold varianceOf
  exact div_nonneg (sum_sq_nonneg _ _) (by positivity)

/-- C5: for a column with at least one valid value, the summary's standard
deviation squares back to the population variance — the sum of squared
deviations from the mean divided by N, not N−1 — and the median, q1 and q3
are the nearest-rank picks of the spec: the entries of the
ascending-sorted valid-value sequence (a sorted permutation of
`numericValues`) at index `floor(p × n)` for p = 1/2, 1/4, 3/4, with no
interpolation. -/
theorem numericStats_population_stdDev_nearestRank_quartiles
    (merged : List Row) (col : String)
    (h : numericValues merged col ≠ []) :
    (sortedValues merged col).Sorted (· ≤ ·) ∧
    (sortedValues merged col).Perm (numericValues merged col) ∧
    stdDevOf merged col ^ 2 =
      ((((numericValues merged col).map
          (fun x => (x - meanOf merged col) ^ 2)).sum /
        ((numericValues merged col).length : ℚ) : ℚ) : ℝ) ∧
    medianOf merged col = nearestRank (1 / 2) (sortedValues merged col) ∧
    q1Of merged col = nearestRank (1 / 4) (sortedValues merged col) ∧
    q3Of merged col = nearestRank (3 / 4) (sortedValues merged col) := by
  refine ⟨List.sorted_insertionSort _ _, List.perm_insertionSort _ _,
    ?_, ?_, ?_, ?_⟩
  · rw [stdDevOf, Real.sq_sqrt (by exact_mod_cast varianceOf_nonneg merged col)]
    rw [varianceOf]
  · rw [medianOf, nearestRank, mul_comm]
  · rw [q1Of, nearestRank, mul_comm]
  · rw [q3Of, nearestRank, mul_comm]

/-- C5 witness at a concrete four-row dataset: the hypothesis holds there
and the nearest-rank conclusions follow by applying the theorem. -/
theorem numericStats_population_stdDev_witness :
    numericValues
        [[("Age", Value.num 30)], [("Age", Value.num 10)],
          [("Age", Value.num 20)], [("Age", Value.num 40)]] "Age" ≠ [] ∧
    medianOf
        [[("Age", Value.num 30)], [("Age", Value.num 10)],
          [("Age", Value.num 20)], [("Age", Value.num 40)]] "Age" =
      nearestRank (1 / 2)
        (sortedValues
          [[("Age", Value.num 30)], [("Age", Value.num 10)],
            [("Age", Value.num 20)], [("Age", Value.num 40)]] "Age") ∧
    q1Of
        [[("Age", Value.num 30)], [("Age", Value.num 10)],
          [("Age", Value.num 20)], [("Age", Value.num 40)]] "Age" =
      nearestRank (1 / 4)
        (sortedValues
          [[("Age", Value.num 30)], [("Age", Value.num 10)],
            [("Age", Value.num 20)], [("Age", Value.num 40)]] "Age") ∧
    q3Of
        [[("Age", Value.num 30)], [("Age", Value.num 10)],
          [("Age", Value.num 20)], [("Age", Value.num 40)]] "Age" =
      nearestRank (3 / 4)
        (sortedValues
          [[("Age", Value.num 30)], [("Age", Value.num 10)],
            [("Age", Value.num 20)], [("Age", Value.num 40)]] "Age") :=
  ⟨by decide,
    (numericStats_population_stdDev_nearestRank_quartiles
      [[("Age", Value.num 30)], [("Age", Value.num 10)],
        [("Age", Value.num 20)], [("Age", Value.num 40)]] "Age"
      (by decide)).2.2.2.1,
    (numericStats_population_stdDev_nearestRank_quartiles
      [[("Age", Value.num 30)], [("Age", Value.num 10)],
        [("Age", Value.num 20)], [("Age", Value.num 40)]] "Age"
      (by decide)).2.2.2.2.1,
    (numericStats_population_stdDev_nearestRank_quartiles
      [[("Age", Value.num 30)], [("Age", Value.num 10)],
        [("Age", Value.num 20)], [("Age", Value.num 40)]] "Age"
      (by decide)).2.2.2.2.2⟩

/-! ### Claim C7 — missing-value analyzer
(src/app.js `calculateMissingValues`, 1419-1436) -/

/-- The missingness test:
`value === null || value === undefined || value === '' ||
(typeof value === 'number' && isNaN(value))`. -/
def isAbsent : Value → Bool
  | .null => true
  | .str s => s == ""
  | .nan => true
  | .num _ => false

/-- The analyzer `calculateMissingValues` for one column: excluded columns are skipped,
otherwise the count of absent-valued rows over the whole merged dataset is
paired with `count / totalRows * 100` (the exact value; the source then
renders it with `toFixed(2)`). -/
def missingEntry (merged : List Row) (col : String) : Option (Nat × ℚ) :=
  if col ∈ EXCLUDED_COLUMNS then none
  else
    some ((merged.filter (fun r => isAbsent (getField r col))).length,
      (((merged.filter (fun r => isAbsent (getField r col))).length : ℚ) /
          (merged.length : ℚ)) * 100)

/-- C7: for a non-excluded column the report counts exactly the rows of
the whole merged dataset (both origins) whose value at the column is
absent — null/undefined, empty string, or a present-but-NaN number — the
count is bounded by the total row count, and the reported percentage is
`100 × count / totalRows`. -/
theorem missingReport_count_and_percentage (merged : List Row)
    (col : String) (h : col ∉ EXCLUDED_COLUMNS) :
    missingEntry merged col =
      some (merged.countP (fun r => isAbsent (getField r col)),
        100 * (merged.countP (fun r => isAbsent (getField r col)) : ℚ) /
          (merged.length : ℚ)) ∧
    merged.countP (fun r => isAbsent (getField r col)) ≤ merged.length := by
  rw [List.countP_eq_length_filter]
  constructor
  · rw [missingEntry, if_neg h]
    congr 1
    rw [Prod.mk.injEq]
    exact ⟨rfl, by ring⟩
  · exact List.length_filter_le _ _

/-- C7 witness: one absent (NaN) and one present value of `Age`. -/
theorem missingReport_count_and_percentage_witness :
    "Age" ∉ EXCLUDED_COLUMNS ∧
    missingEntry [[("Age", Value.nan)], [("Age", Value.num 7)]] "Age" =
      some ([[("Age", Value.nan)], [("Age", Value.num 7)]].countP
          (fun r => isAbsent (getField r "Age")),
        100 * (([[("Age", Value.nan)], [("Age", Value.num 7)]].countP
            (fun r => isAbsent (getField r "Age"))) : ℚ) /
          (([[("Age", Value.nan)], [("Age", Value.num 7)]] :
            List Row).length : ℚ)) :=
  ⟨by decide,
    (missingReport_count_and_percentage
      [[("Age", Value.nan)], [("Age", Value.num 7)]] "Age" (by decide)).1⟩

/-! ### Claim C8 — omission on zero valid values, and the NaN leak -/

/-- The failing input for C8: a train batch
`[{Age: 30, Survived: 0}, {Age: NaN, Survived: 1}]` merged with a test
batch `[{Age: 40}]`. -/
def c8data : List Row :=
  mergeDatasets
    [[("Age", Value.num 30), ("Survived", Value.num 0)],
      [("Age", Value.nan), ("Survived", Value.num 1)]]
    [[("Age", Value.num 40)]]

/-- C8: the first half of the claim holds — a numeric column with zero
valid values is omitted from the summary map (second conjunct, where `B`
holds only NaN, is inferred numeric, and gets no summary) — but the
engine does NOT keep NaN out of every emitted field: on `c8data` the
`Age` summary is emitted and its grouped-by-Survived block is
`{survivedMean: NaN, notSurvivedMean: 30, difference: NaN}`, because the
group filter (line 1505) checks `typeof === 'number'` without the
`!isNaN` guard used everywhere else.  The claim "no emitted numeric
summary ever contains NaN" is therefore violated by the code. -/
theorem groupedSurvivedMean_nan_leak :
    (∃ s, numericSummary c8data "Age" = some s ∧
        s.groupedBySurvived =
          some ⟨JSNum.nan, JSNum.fin 30, JSNum.nan⟩) ∧
    numericSummary [[("B", Value.nan)]] "B" = none := by
  refine ⟨⟨_, rfl, ?_⟩, rfl⟩
  show groupedNumericOf c8data "Age" =
    some ⟨JSNum.nan, JSNum.fin 30, JSNum.nan⟩
  have h30 : ((0 : ℚ) + 30) / ((max 1 1 : ℕ) : ℚ) = 30 := by norm_num
  calc groupedNumericOf c8data "Age"
      = some ⟨JSNum.nan,
          JSNum.fin (((0 : ℚ) + 30) / ((max 1 1 : ℕ) : ℚ)), JSNum.nan⟩ :=
        rfl
    _ = some ⟨JSNum.nan, JSNum.fin 30, JSNum.nan⟩ := by rw [h30]

/-! ### Claim C3 — grouped-by-label categorical tallies
(src/app.js `calculateStatisticalSummaries`, lines 1545-1576) -/

/-- Stringification `String(value)`.  For integers the JS rendering is matched exactly;
for non-integer rationals the model renders `num/den` instead of the JS
decimal expansion — an injective renaming of keys that no claim depends
on. -/
def valueKey : Value → String
  | .num q => if q.den = 1 then toString q.num else toString q
  | .nan => "NaN"
  | .str s => s
  | .null => "null"

/-- Property lookup on a JS object modelled as an association list
(`undefined` modelled as `none`). -/
def lookupO {α : Type} : List (String × α) → String → Option α
  | [], _ => none
  | p :: rest, k => if p.1 = k then some p.2 else lookupO rest k

/-- Property write `o[k] = v`: an existing key is updated in place, a new
key is appended.  (For enumeration-order questions see `objEntries`
below; lookups do not depend on the position.) -/
def objSet {α : Type} (o : List (String × α)) (k : String) (v : α) :
    List (String × α) :=
  if (lookupO o k).isSome then
    o.map (fun p => if p.1 = k then (k, v) else p)
  else o ++ [(k, v)]

/-- The presence test `row[column] !== null && row[column] !== undefined &&
row[TARGET_COLUMN] !== null && row[TARGET_COLUMN] !== undefined` — note
that the empty string, NaN and non-numeric labels all count as present
here. -/
def bothPresent (r : Row) (col : String) : Bool :=
  !(getField r col == Value.null) &&
    !(getField r TARGET_COLUMN == Value.null)

/-- One iteration of the grouped-count loop: rows with column value and
label both present bump the (survived, notSurvived) pair of the
stringified column value — `survived` when `row[TARGET_COLUMN] === 1`,
`notSurvived` for EVERY other present label (the bare `else` on line
1558). -/
def tallyStep (col : String) (o : List (String × (Nat × Nat))) (r : Row) :
    List (String × (Nat × Nat)) :=
  if bothPresent r col then
    let key := valueKey (getField r col)
    let cur := (lookupO o key).getD (0, 0)
    objSet o key
      (if isOne (getField r TARGET_COLUMN) then (cur.1 + 1, cur.2)
       else (cur.1, cur.2 + 1))
  else o

/-- The `groupedCounts` object built over the train rows. -/
def groupedTally (merged : List Row) (col : String) :
    List (String × (Nat × Nat)) :=
  (trainRows merged).foldl (tallyStep col) []

/-- The (survived, notSurvived) pair recorded for one stringified value
(`(0, 0)` when the value never appears). -/
def lookupGrouped (merged : List Row) (col key : String) : Nat × Nat :=
  (lookupO (groupedTally merged col) key).getD (0, 0)

/-- The tally the claim describes: labels outside {0, 1} excluded
entirely — positive only for label `=== 1`, negative only for label
`=== 0`. -/
def lookupGroupedPerClaim (merged : List Row) (col key : String) :
    Nat × Nat :=
  ((trainRows merged).countP (fun r =>
      bothPresent r col && (valueKey (getField r col) == key) &&
        (getField r TARGET_COLUMN == Value.num 1)),
    (trainRows merged).countP (fun r =>
      bothPresent r col && (valueKey (getField r col) == key) &&
        (getField r TARGET_COLUMN == Value.num 0)))

theorem lookupO_append {α : Type} (o o2 : List (String × α)) (k : String) :
    lookupO (o ++ o2) k =
      if (lookupO o k).isSome then lookupO o k else lookupO o2 k := by
  induction o with
  | nil => simp [lookupO]
  | cons p rest ih =>
      by_cases hp : p.1 = k
      · simp [lookupO, hp]
      · simp [lookupO, hp, ih]

theorem lookupO_map_update_self {α : Type} (o : List (String × α))
    (k : String) (v : α) (h : (lookupO o k).isSome = true) :
    lookupO (o.map (fun p => if p.1 = k then (k, v) else p)) k = some v := by
  induction o with
  | nil => simp [lookupO] at h
  | cons p rest ih =>
      by_cases hp : p.1 = k
      · simp [lookupO, hp]
      · simp only [lookupO, if_neg hp, List.map_cons] at h ⊢
        exact ih h

theorem lookupO_map_update_ne {α : Type} (o : List (String × α))
    (k k' : String) (v : α) (hne : k' ≠ k) :
    lookupO (o.map (fun p => if p.1 = k then (k, v) else p)) k' =
      lookupO o k' := by
  induction o with
  | nil => simp
  | cons p rest ih =>
      by_cases hp : p.1 = k
      · have h1 : p.1 ≠ k' := fun hc => hne ((hc ▸ hp : k' = k))
        have h2 : k ≠ k' := fun hc => hne hc.symm
        simp [lookupO, hp, h1, h2, ih]
      · simp [lookupO, hp, ih]

theorem lookupO_objSet_self {α : Type} (o : List (String × α))
    (k : String) (v : α) : lookupO (objSet o k v) k = some v := by
  unfold objSet
  by_cases h : (lookupO o k).isSome = true
  · rw [if_pos h]
    exact lookupO_map_update_self o k v h
  · rw [if_neg h, lookupO_append, if_neg h]
    simp [lookupO]

theorem lookupO_objSet_ne {α : Type} (o : List (String × α))
    (k k' : String) (v : α) (hne : k' ≠ k) :
    lookupO (objSet o k v) k' = lookupO o k' := by
  unfold objSet
  by_cases h : (lookupO o k).isSome = true
  · rw [if_pos h]
    exact lookupO_map_update_ne o k k' v hne
  · rw [if_neg h, lookupO_append]
    by_cases hk' : (lookupO o k').isSome = true
    · rw [if_pos hk']
    · rw [if_neg hk']
      simp only [lookupO, if_neg (fun hc : k = k' => hne hc.symm)]
      rw [Option.not_isSome_iff_eq_none] at hk'
      exact hk'.symm

theorem foldl_tallyStep_lookup (col key : String) (rows : List Row) :
    ∀ o,
      (lookupO (rows.foldl (tallyStep col) o) key).getD (0, 0) =
        (((lookupO o key).getD (0, 0)).1 + rows.countP (fun r =>
            bothPresent r col && (valueKey (getField r col) == key) &&
              isOne (getField r TARGET_COLUMN)),
          ((lookupO o key).getD (0, 0)).2 + rows.countP (fun r =>
            bothPresent r col && (valueKey (getField r col) == key) &&
              !isOne (getField r TARGET_COLUMN))) := by
  induction rows with
  | nil => intro o; simp
  | cons r rest ih =>
      intro o
      rw [List.foldl_cons, ih (tallyStep col o r), List.countP_cons,
        List.countP_cons]
      by_cases hbp : bothPresent r col = true
      · by_cases hkey : valueKey (getField r col) = key
        · have hstep : lookupO (tallyStep col o r) key =
              some (if isOne (getField r TARGET_COLUMN) = true then
                  (((lookupO o key).getD (0, 0)).1 + 1,
                    ((lookupO o key).getD (0, 0)).2)
                else
                  (((lookupO o key).getD (0, 0)).1,
                    ((lookupO o key).getD (0, 0)).2 + 1)) := by
            unfold tallyStep
            rw [if_pos hbp, hkey]
            exact lookupO_objSet_self o key _
          rw [hstep]
          by_cases hone : isOne (getField r TARGET_COLUMN) = true
          · rw [if_pos hone]
            simp only [Option.getD_some, Prod.mk.injEq]
            constructor <;> simp [hbp, hkey, hone] <;> omega
          · rw [if_neg hone]
            simp only [Option.getD_some, Prod.mk.injEq]
            constructor <;> simp [hbp, hkey, hone] <;> omega
        · have hstep : lookupO (tallyStep col o r) key = lookupO o key := by
            unfold tallyStep
            rw [if_pos hbp]
            exact lookupO_objSet_ne o (valueKey (getField r col)) key _
              (fun hc => hkey hc.symm)
          rw [hstep]
          simp [hkey]
      · have hstep : tallyStep col o r = o := by
          unfold tallyStep
          rw [if_neg hbp]
        rw [hstep]
        simp [hbp]

/-- C3 (amended): the grouped tally for a stringified value counts, over
the train rows with both the column value and the label present, the rows
with label `=== 1` as positive and EVERY other present label — including
numeric values outside {0, 1}, NaN and strings — as negative. -/
theorem groupedTally_nonOne_counted_negative (merged : List Row)
    (col key : String) :
    lookupGrouped merged col key =
      ((trainRows merged).countP (fun r =>
          bothPresent r col && (valueKey (getField r col) == key) &&
            isOne (getField r TARGET_COLUMN)),
        (trainRows merged).countP (fun r =>
          bothPresent r col && (valueKey (getField r col) == key) &&
            !isOne (getField r TARGET_COLUMN))) := by
  unfold lookupGrouped groupedTally
  rw [foldl_tallyStep_lookup col key (trainRows merged) []]
  simp [lookupO]

/-- C3 (counterexample): a train row `{Sex: "male", Survived: 2}` — label
present but outside {0, 1}.  The claim says it is excluded from the
grouped tally entirely, i.e. the tally `(0, 0)`; the code counts it as
negative, giving `(0, 1)`. -/
theorem groupedTally_outOfRange_label_counterexample :
    lookupGrouped
        [[("Sex", Value.str "male"), ("Survived", Value.num 2),
          ("source", Value.str "train")]] "Sex" "male" = (0, 1) ∧
    lookupGroupedPerClaim
        [[("Sex", Value.str "male"), ("Survived", Value.num 2),
          ("source", Value.str "train")]] "Sex" "male" = (0, 0) := by
  constructor <;> rfl

/-! ### Claim C9 — categorical top values
(src/app.js `calculateStatisticalSummaries`, lines 1524-1542)

The `valueCounts` object is a plain JS object, so `Object.entries`
enumerates its keys in the ECMAScript own-property order: keys that are
canonical array indices (a canonical decimal numeral below 2³²−1) first,
in ascending numeric order, then all remaining keys in insertion
(first-seen) order.  The stringified values of a categorical column are
frequently such numerals (`String(2) = "2"`), so this order matters. -/

/-- Numeric value of a digit character. -/
def digitVal (c : Char) : Nat := c.toNat - 48

/-- Value of a decimal digit string. -/
def decValue (cs : List Char) : Nat :=
  cs.foldl (fun acc c => acc * 10 + digitVal c) 0

/-- Canonical-array-index test of the ECMAScript property order: a
nonempty all-digit string with no leading zero (except "0" itself) whose
value is below 2³² − 1. -/
def isArrayIndex (s : String) : Bool :=
  match s.data with
  | [] => false
  | c :: cs =>
      (c :: cs).all Char.isDigit &&
        (c != '0' || cs.isEmpty) &&
        decValue (c :: cs) < 4294967295

/-- The bump `valueCounts[key] = (valueCounts[key] || 0) + 1`. -/
def objIncr (o : List (String × Nat)) (k : String) : List (String × Nat) :=
  objSet o k ((lookupO o k).getD 0 + 1)

/-- The `valueCounts` object over the stringified present values, in
property-insertion order. -/
def buildCounts (vs : List String) : List (String × Nat) :=
  vs.foldl objIncr []

/-- Ascending numeric order on array-index keys. -/
def idxLe : (String × Nat) → (String × Nat) → Prop :=
  fun a b => decValue a.1.data ≤ decValue b.1.data

instance : DecidableRel idxLe := fun a b =>
  inferInstanceAs (Decidable (decValue a.1.data ≤ decValue b.1.data))

/-- Enumeration `Object.entries`: array-index keys ascending first, then the rest in
insertion order.  (Array-index keys are pairwise distinct numerals, so any
sort realises the ascending enumeration.) -/
def objEntries (o : List (String × Nat)) : List (String × Nat) :=
  List.insertionSort idxLe (o.filter (fun p => isArrayIndex p.1)) ++
    o.filter (fun p => !isArrayIndex p.1)

/-- The comparator `(a, b) => b[1] - a[1]` of the stable `Array.sort`:
`a` stays before `b` iff `b.count ≤ a.count`. -/
def countGe : (String × Nat) → (String × Nat) → Prop :=
  fun a b => b.2 ≤ a.2

instance : DecidableRel countGe := fun a b =>
  inferInstanceAs (Decidable (b.2 ≤ a.2))

instance : IsTotal (String × Nat) countGe :=
  ⟨fun a b => show b.2 ≤ a.2 ∨ a.2 ≤ b.2 from le_total b.2 a.2⟩

instance : IsTrans (String × Nat) countGe :=
  ⟨fun _ _ _ h1 h2 => le_trans h2 h1⟩

/-- The result `Object.entries(valueCounts).sort((a,b) => b[1]-a[1]).slice(0, 10)` —
a stable sort has a unique output, so the insertion sort models it. -/
def topValuesOf (merged : List Row) (col : String) : List (String × Nat) :=
  (List.insertionSort countGe
    (objEntries (buildCounts ((presentValues merged col).map valueKey)))).take 10

/-- The distinct stringified values in first-encountered order. -/
def firstSeenKeys (l : List String) : List String :=
  l.foldl (fun acc k => if k ∈ acc then acc else acc ++ [k]) []

/-- The tally in first-encountered order (the claim's reading of the
`valueCounts` object). -/
def firstSeenCounts (l : List String) : List (String × Nat) :=
  (firstSeenKeys l).map (fun k => (k, l.count k))

/-- The top-10 list as the claim words it: count descending, ties in
first-encountered order, no array-index reordering. -/
def topValuesFirstSeen (merged : List Row) (col : String) :
    List (String × Nat) :=
  (List.insertionSort countGe
    (firstSeenCounts ((presentValues merged col).map valueKey))).take 10

theorem mem_foldl_addKey (l : List String) :
    ∀ (acc : List String) (x : String),
      (x ∈ l.foldl (fun acc k => if k ∈ acc then acc else acc ++ [k]) acc) ↔
        (x ∈ acc ∨ x ∈ l) := by
  induction l with
  | nil => simp
  | cons k rest ih =>
      intro acc x
      rw [List.foldl_cons, ih]
      by_cases hk : k ∈ acc
      · rw [if_pos hk]
        simp only [List.mem_cons]
        constructor
        · tauto
        · rintro (h | h | h)
          · tauto
          · exact Or.inl (h ▸ hk)
          · tauto
      · rw [if_neg hk]
        simp only [List.mem_append, List.mem_singleton, List.mem_cons]
        tauto

theorem mem_firstSeenKeys (l : List String) (x : String) :
    x ∈ firstSeenKeys l ↔ x ∈ l := by
  unfold firstSeenKeys
  rw [mem_foldl_addKey]
  simp

theorem firstSeenKeys_append_singleton (l : List String) (k : String) :
    firstSeenKeys (l ++ [k]) =
      if k ∈ firstSeenKeys l then firstSeenKeys l
      else firstSeenKeys l ++ [k] := by
  unfold firstSeenKeys
  rw [List.foldl_append]
  rfl

theorem lookupO_map_keyed (K : List String) (g : String → Nat)
    (k : String) :
    lookupO (K.map (fun x => (x, g x))) k =
      if k ∈ K then some (g k) else none := by
  induction K with
  | nil => simp [lookupO]
  | cons x K ih =>
      simp only [List.map_cons, lookupO, List.mem_cons]
      by_cases hx : x = k
      · rw [if_pos hx, if_pos (Or.inl hx.symm), hx]
      · rw [if_neg hx, ih]
        by_cases hk : k ∈ K
        · rw [if_pos hk, if_pos (Or.inr hk)]
        · rw [if_neg hk,
            if_neg (fun hc => hc.elim (fun h1 => hx h1.symm) hk)]

/-- The incrementally built `valueCounts` object equals the first-seen
tally. -/
theorem buildCounts_eq_firstSeenCounts (l : List String) :
    buildCounts l = firstSeenCounts l := by
  induction l using List.reverseRecOn with
  | nil => rfl
  | append_singleton l k ih =>
      have hbuild : buildCounts (l ++ [k]) = objIncr (buildCounts l) k := by
        unfold buildCounts
        rw [List.foldl_append]
        rfl
      rw [hbuild, ih]
      unfold objIncr objSet firstSeenCounts
      rw [firstSeenKeys_append_singleton, lookupO_map_keyed]
      by_cases hk : k ∈ firstSeenKeys l
      · simp only [hk, if_true, Option.isSome_some, Option.getD_some,
          List.map_map]
        refine List.map_congr_left (fun x hx => ?_)
        by_cases hxk : x = k
        · subst hxk
          simp [List.count_append, List.count_cons, List.count_nil]
        · have hkx : ¬ k = x := fun hc => hxk hc.symm
          have hcx : List.count x (l ++ [k]) = List.count x l := by
            rw [List.count_append]
            simp [List.count_cons, List.count_nil, beq_iff_eq, hkx]
          simp only [Function.comp_apply, if_neg hxk, hcx]
      · simp only [hk, if_false, Option.isSome_none, Bool.false_eq_true,
          Option.getD_none, List.map_append, List.map_cons, List.map_nil]
        congr 1
        · refine List.map_congr_left (fun x hx => ?_)
          have hxk : x ≠ k := fun hc => hk (hc ▸ hx)
          have hkx : ¬ k = x := fun hc => hxk hc.symm
          have hcx : List.count x (l ++ [k]) = List.count x l := by
            rw [List.count_append]
            simp [List.count_cons, List.count_nil, beq_iff_eq, hkx]
          rw [hcx]
        · have hkl : k ∉ l := fun hc => hk ((mem_firstSeenKeys l k).mpr hc)
          have hck : List.count k (l ++ [k]) = 1 := by
            rw [List.count_append, List.count_eq_zero_of_not_mem hkl]
            simp
          rw [hck]

/-- C9 (amended): `topValues` is the stable count-descending sort of the
tally read in the JS own-property enumeration order — canonical
array-index values ascending numerically first, then the remaining values
in first-encountered order — truncated to at most 10 pairs; the output is
sorted by count descending and has length ≤ 10. -/
theorem topValues_jsEnumOrder (merged : List Row) (col : String) :
    topValuesOf merged col =
      (List.insertionSort countGe
        (objEntries
          (firstSeenCounts ((presentValues merged col).map valueKey)))).take
        10 ∧
    (topValuesOf merged col).Sorted countGe ∧
    (topValuesOf merged col).length ≤ 10 := by
  refine ⟨?_, ?_, ?_⟩
  · unfold topValuesOf
    rw [buildCounts_eq_firstSeenCounts]
  · exact (List.sorted_insertionSort countGe _).sublist
      (List.take_sublist _ _)
  · unfold topValuesOf
    rw [List.length_take]
    exact min_le_left _ _

/-- C9 (counterexample): a categorical column whose stringified values
"2" then "1" are both array-index keys with tied counts.  The claim's
first-encountered tie-break predicts `[("2",1), ("1",1)]`; the code
enumerates array-index keys ascending and outputs `[("1",1), ("2",1)]`. -/
theorem topValues_tieBreak_counterexample :
    determineColumnType
        [[("C", Value.str "2"), ("source", Value.str "train")],
          [("C", Value.str "1"), ("source", Value.str "test")]] "C" =
      .categorical ∧
    topValuesOf
        [[("C", Value.str "2"), ("source", Value.str "train")],
          [("C", Value.str "1"), ("source", Value.str "test")]] "C" =
      [("1", 1), ("2", 1)] ∧
    topValuesFirstSeen
        [[("C", Value.str "2"), ("source", Value.str "train")],
          [("C", Value.str "1"), ("source", Value.str "test")]] "C" =
      [("2", 1), ("1", 1)] := by
  refine ⟨by decide, by decide, by decide⟩

/-! ### Claim C4 — correlation matrix
(src/app.js `createCorrelationHeatmap`, lines 2013-2070) -/

/-- The valid pairs of two columns: rows where both values are
number-typed and not NaN (`typeof === 'number' && !isNaN`), in row
order. -/
def validPairs (rows : List Row) (c1 c2 : String) : List (ℚ × ℚ) :=
  rows.filterMap (fun r =>
    match getField r c1, getField r c2 with
    | .num x, .num y => some (x, y)
    | _, _ => none)

/-- The pair mean `pairs.reduce((sum, p) => sum + p.x, 0) / pairs.length`. -/
def pairMeanX (ps : List (ℚ × ℚ)) : ℚ :=
  (ps.map Prod.fst).sum / ps.length

def pairMeanY (ps : List (ℚ × ℚ)) : ℚ :=
  (ps.map Prod.snd).sum / ps.length

/-- The numerator `Σ (p.x - meanX) * (p.y - meanY)`. -/
def corrNumerator (ps : List (ℚ × ℚ)) : ℚ :=
  (ps.map (fun p => (p.1 - pairMeanX ps) * (p.2 - pairMeanY ps))).sum

/-- The radicand of `denomX`: `Σ (p.x - meanX)²`. -/
def corrDenomSqX (ps : List (ℚ × ℚ)) : ℚ :=
  (ps.map (fun p => (p.1 - pairMeanX ps) ^ 2)).sum

def corrDenomSqY (ps : List (ℚ × ℚ)) : ℚ :=
  (ps.map (fun p => (p.2 - pairMeanY ps) ^ 2)).sum

section
open Classical

/-- The off-diagonal entry: `numerator / (denomX * denomY)` when
`denomX * denomY !== 0`, else 0; and 0 when there are no valid pairs. -/
noncomputable def pearsonOf (ps : List (ℚ × ℚ)) : ℝ :=
  if 0 < ps.length then
    if Real.sqrt (corrDenomSqX ps) * Real.sqrt (corrDenomSqY ps) ≠ 0 then
      (corrNumerator ps : ℝ) /
        (Real.sqrt (corrDenomSqX ps) * Real.sqrt (corrDenomSqY ps))
    else 0
  else 0

/-- The correlation matrix entry over the train rows: 1 on the diagonal
(`i === j`) regardless of the column's variance, the Pearson coefficient
of the pairwise-complete observations otherwise. -/
noncomputable def corrEntry (merged : List Row) (cols : List String)
    (i j : Fin cols.length) : ℝ :=
  if i = j then 1
  else pearsonOf (validPairs (trainRows merged) (cols.get i) (cols.get j))

end

theorem list_sum_sq_nonneg (l : List (ℚ × ℚ)) (f : ℚ × ℚ → ℚ) :
    0 ≤ (l.map (fun p => f p ^ 2)).sum := by
  induction l with
  | nil => simp
  | cons p l ih =>
      simp only [List.map_cons, List.sum_cons]
      positivity

/-- Cauchy-Schwarz for lists of pairs, squared form. -/
theorem list_inner_sq_le (l : List (ℚ × ℚ)) :
    ((l.map (fun p => p.1 * p.2)).sum) ^ 2 ≤
      ((l.map (fun p => p.1 ^ 2)).sum) *
        ((l.map (fun p => p.2 ^ 2)).sum) := by
  induction l with
  | nil => simp
  | cons p l ih =>
      simp only [List.map_cons, List.sum_cons]
      have hF : 0 ≤ (l.map (fun p => p.1 ^ 2)).sum :=
        list_sum_sq_nonneg l Prod.fst
      have hG : 0 ≤ (l.map (fun p => p.2 ^ 2)).sum :=
        list_sum_sq_nonneg l Prod.snd
      have hP : 0 ≤ p.1 ^ 2 * (l.map (fun p => p.2 ^ 2)).sum +
          p.2 ^ 2 * (l.map (fun p => p.1 ^ 2)).sum := by positivity
      have hPsq : (2 * (p.1 * p.2) * (l.map (fun p => p.1 * p.2)).sum) ^ 2 ≤
          (p.1 ^ 2 * (l.map (fun p => p.2 ^ 2)).sum +
            p.2 ^ 2 * (l.map (fun p => p.1 ^ 2)).sum) ^ 2 := by
        nlinarith [sq_nonneg (p.1 ^ 2 * (l.map (fun p => p.2 ^ 2)).sum -
            p.2 ^ 2 * (l.map (fun p => p.1 ^ 2)).sum),
          mul_nonneg (mul_nonneg (sq_nonneg p.1) (sq_nonneg p.2))
            (sub_nonneg.mpr ih)]
      have h2 : 2 * (p.1 * p.2) * (l.map (fun p => p.1 * p.2)).sum ≤
          p.1 ^ 2 * (l.map (fun p => p.2 ^ 2)).sum +
            p.2 ^ 2 * (l.map (fun p => p.1 ^ 2)).sum := by
        by_contra hcon
        push_neg at hcon
        have hxpos : 0 < 2 * (p.1 * p.2) * (l.map (fun p => p.1 * p.2)).sum :=
          lt_of_le_of_lt hP hcon
        nlinarith [hPsq, hcon, hP, hxpos]
      nlinarith [h2, ih]

theorem corrNumerator_sq_le (ps : List (ℚ × ℚ)) :
    corrNumerator ps ^ 2 ≤ corrDenomSqX ps * corrDenomSqY ps := by
  have h := list_inner_sq_le
    (ps.map (fun p => (p.1 - pairMeanX ps, p.2 - pairMeanY ps)))
  simpa [List.map_map, Function.comp, corrNumerator, corrDenomSqX,
    corrDenomSqY] using h

theorem pearsonOf_bounds (ps : List (ℚ × ℚ)) :
    -1 ≤ pearsonOf ps ∧ pearsonOf ps ≤ 1 := by
  unfold pearsonOf
  by_cases hlen : 0 < ps.length
  · rw [if_pos hlen]
    have hA0 : (0 : ℚ) ≤ corrDenomSqX ps :=
      list_sum_sq_nonneg ps (fun p => p.1 - pairMeanX ps)
    by_cases hd : Real.sqrt (corrDenomSqX ps) *
        Real.sqrt (corrDenomSqY ps) ≠ 0
    · rw [if_pos hd]
      have hpos : 0 < Real.sqrt (corrDenomSqX ps) *
          Real.sqrt (corrDenomSqY ps) :=
        lt_of_le_of_ne
          (mul_nonneg (Real.sqrt_nonneg _) (Real.sqrt_nonneg _))
          (Ne.symm hd)
      have hcast : ((corrNumerator ps : ℝ)) ^ 2 ≤
          ((corrDenomSqX ps : ℝ)) * ((corrDenomSqY ps : ℝ)) := by
        exact_mod_cast corrNumerator_sq_le ps
      have h1 : |(corrNumerator ps : ℝ)| ≤
          Real.sqrt ((corrDenomSqX ps : ℝ) * (corrDenomSqY ps : ℝ)) := by
        rw [← Real.sqrt_sq_eq_abs]
        exact Real.sqrt_le_sqrt hcast
      rw [Real.sqrt_mul (by exact_mod_cast hA0)] at h1
      have habs : |(corrNumerator ps : ℝ) /
          (Real.sqrt (corrDenomSqX ps) * Real.sqrt (corrDenomSqY ps))| ≤
            1 := by
        rw [abs_div, abs_of_pos hpos, div_le_one hpos]
        exact h1
      exact abs_le.mp habs
    · rw [if_neg hd]
      norm_num
  · rw [if_neg hlen]
    norm_num

theorem validPairs_swap (rows : List Row) (c1 c2 : String) :
    validPairs rows c2 c1 = (validPairs rows c1 c2).map Prod.swap := by
  induction rows with
  | nil => rfl
  | cons r rows ih =>
      unfold validPairs at ih ⊢
      rw [List.filterMap_cons, List.filterMap_cons]
      cases h1 : getField r c1 <;> cases h2 : getField r c2 <;>
        simp [h1, h2, ih]

theorem pearsonOf_swap (ps : List (ℚ × ℚ)) :
    pearsonOf (ps.map Prod.swap) = pearsonOf ps := by
  have hmx : pairMeanX (ps.map Prod.swap) = pairMeanY ps := by
    unfold pairMeanX pairMeanY
    rw [List.map_map, List.length_map]
    rfl
  have hmy : pairMeanY (ps.map Prod.swap) = pairMeanX ps := by
    unfold pairMeanX pairMeanY
    rw [List.map_map, List.length_map]
    rfl
  have hnum : corrNumerator (ps.map Prod.swap) = corrNumerator ps := by
    unfold corrNumerator
    rw [hmx, hmy, List.map_map]
    refine congrArg List.sum (List.map_congr_left (fun p _ => ?_))
    simp [Prod.swap, mul_comm]
  have hx : corrDenomSqX (ps.map Prod.swap) = corrDenomSqY ps := by
    unfold corrDenomSqX corrDenomSqY
    rw [hmx, List.map_map]
    rfl
  have hy : corrDenomSqY (ps.map Prod.swap) = corrDenomSqX ps := by
    unfold corrDenomSqX corrDenomSqY
    rw [hmy, List.map_map]
    rfl
  unfold pearsonOf
  rw [hnum, hx, hy, List.length_map,
    mul_comm (Real.sqrt (corrDenomSqY ps)) (Real.sqrt (corrDenomSqX ps))]

/-- C4: every entry of the correlation matrix lies in [−1, 1] (exactly,
in the exact-arithmetic model — "within floating tolerance" in IEEE
terms), every diagonal entry equals 1 exactly, and the matrix is
symmetric: the (i, j) and (j, i) entries are equal — the two
recomputations are term-by-term mirror images, so this also holds
bit-for-bit in IEEE arithmetic. -/
theorem correlation_bounds_diagonal_symmetric (merged : List Row)
    (cols : List String) (i j : Fin cols.length) :
    (-1 ≤ corrEntry merged cols i j ∧ corrEntry merged cols i j ≤ 1) ∧
    corrEntry merged cols i i = 1 ∧
    corrEntry merged cols i j = corrEntry merged cols j i := by
  refine ⟨?_, by rw [corrEntry, if_pos rfl], ?_⟩
  · unfold corrEntry
    by_cases hij : i = j
    · rw [if_pos hij]
      norm_num
    · rw [if_neg hij]
      exact pearsonOf_bounds _
  · unfold corrEntry
    by_cases hij : i = j
    · rw [if_pos hij, if_pos hij.symm]
    · rw [if_neg hij, if_neg (fun hc => hij hc.symm)]
      rw [validPairs_swap (trainRows merged) (cols.get j) (cols.get i),
        pearsonOf_swap]

end TitanicEDA
